import Mathlib

/-!
Verification of the xclim generic-indices and sdba-processing layers.

Shallow embedding of `xclim/indices/generic.py` and `xclim/sdba/processing.py`.
Labeled time series are modelled as Lists; timestamps carry (year, month, day)
and day-of-year arithmetic is derived from explicit per-calendar month lengths,
mirroring the external calendar service (`get_calendar`, `max_doy`,
`uniform_calendars`) that the source consumes.  Values are rationals (all
"finite floats"); missing values (NaN) are `Option.none`.  Fallible code
returns `Except String`.  Random draws (`np.random.uniform`) are passed in as
explicit oracle lists, since only the replacement structure, not the
distribution, is checked.
-/

namespace Xclim

/-- Calendar identities used by `get_calendar` / `max_doy` / `uniform_calendars`.
`default_cal` stands for the name "default". -/
inductive Calendar where
  | standard
  | gregorian
  | default_cal
  | proleptic_gregorian
  | noleap
  | all_leap
  | day_360
deriving DecidableEq, Repr

/-- `xclim.core.calendar.uniform_calendars = ("noleap", "all_leap", "360_day")`. -/
def uniform_calendars : List Calendar := [.noleap, .all_leap, .day_360]

/-- `xclim.core.calendar.max_doy`: maximum valid day-of-year per calendar. -/
def max_doy (cal : Calendar) : Nat :=
  match cal with
  | .noleap => 365
  | .day_360 => 360
  | _ => 366

/-- Leap-year rule of each calendar (the datetime accessor behind `dt.dayofyear`). -/
def is_leap_year (cal : Calendar) (y : Int) : Bool :=
  match cal with
  | .noleap => false
  | .all_leap => true
  | .day_360 => false
  | _ => y % 4 == 0 && (y % 100 != 0 || y % 400 == 0)

/-- Month lengths of a year, per calendar and leap flag. -/
def month_lengths (cal : Calendar) (leap : Bool) : List Nat :=
  match cal with
  | .day_360 => List.replicate 12 30
  | _ => if leap then [31, 29, 31, 30, 31, 30, 31, 31, 30, 31, 30, 31]
         else [31, 28, 31, 30, 31, 30, 31, 31, 30, 31, 30, 31]

/-- A point on the time axis, as exposed by the datetime accessors. -/
structure TimeStamp where
  year : Int
  month : Nat
  day : Nat
deriving DecidableEq, Repr

/-- `time.dt.dayofyear` for a (year, month, day) label in a given calendar. -/
def dayofyear (cal : Calendar) (t : TimeStamp) : Nat :=
  (((month_lengths cal (is_leap_year cal t.year)).take (t.month - 1)).sum) + t.day

/-- `time.dt.season`: meteorological season label derived from the month. -/
def season_of_month (m : Nat) : String :=
  if m == 12 || m ≤ 2 then "DJF"
  else if m ≤ 5 then "MAM"
  else if m ≤ 8 then "JJA"
  else "SON"

/-- A labeled series: time labels paired with possibly-missing values. -/
abbrev Series := List (TimeStamp × Option ℚ)

/-- `get_doys` nested in `select_time`:
`np.arange(start, end+1)` if `start <= end`, else
`np.concatenate((np.arange(start, 367), np.arange(0, end+1)))`.
Note the hardcoded 367. -/
def get_doys (start stop : Nat) : List Nat :=
  if start ≤ stop then List.range' start (stop + 1 - start)
  else List.range' start (367 - start) ++ List.range' 0 (stop + 1)

/-- `N = sum(arg is not None for arg in [season, month, doy_bounds, date_bounds])`. -/
def n_indexers (seas : Option (List String)) (mon : Option (List Nat))
    (doyB : Option (Nat × Nat)) (dateB : Option ((Nat × Nat) × (Nat × Nat))) : Nat :=
  [seas.isSome, mon.isSome, doyB.isSome, dateB.isSome].count true

/-- `xclim.indices.generic.select_time`.  `dateB` bounds are (month, day) pairs
(the parsed form of the "%m-%d" strings).  With `drop`, entries outside the
selection are removed; otherwise their values are masked to missing.
In the `date_bounds` branch, a non-uniform calendar is first re-expressed in
`all_leap` (the labels are unchanged, only day-of-year arithmetic moves to the
all_leap calendar), and bound doys are taken from year 2000 as in the source. -/
def select_time (cal : Calendar) (da : Series) (drop : Bool)
    (seas : Option (List String)) (mon : Option (List Nat))
    (doyB : Option (Nat × Nat)) (dateB : Option ((Nat × Nat) × (Nat × Nat))) :
    Except String Series :=
  let N := n_indexers seas mon doyB dateB
  if 1 < N then Except.error "Only one method of indexing may be given."
  else if N = 0 then Except.ok da
  else
    let mask : TimeStamp → Bool :=
      match seas, mon, doyB, dateB with
      | some ss, _, _, _ => fun t => ss.contains (season_of_month t.month)
      | _, some ms, _, _ => fun t => ms.contains t.month
      | _, _, some b, _ => fun t => (get_doys b.1 b.2).contains (dayofyear cal t)
      | _, _, _, some b =>
          let cal2 := if uniform_calendars.contains cal then cal else Calendar.all_leap
          let doys := get_doys (dayofyear cal2 ⟨2000, b.1.1, b.1.2⟩)
                               (dayofyear cal2 ⟨2000, b.2.1, b.2.2⟩)
          fun t => doys.contains (dayofyear cal2 t)
      | _, _, _, _ => fun _ => true
    Except.ok (if drop then da.filter (fun p => mask p.1)
               else da.map (fun p => if mask p.1 then p else (p.1, none)))

/-- `xclim.indices.generic.binary_ops`: symbol spelling mapped to mnemonic. -/
def binary_ops : List (String × String) :=
  [(">", "gt"), ("<", "lt"), (">=", "ge"), ("<=", "le"), ("==", "eq"), ("!=", "ne")]

/-- The six comparison operators, as a closed enumeration. -/
inductive CmpOp where
  | gt | lt | ge | le | eq | ne
deriving DecidableEq, Repr

/-- Name resolution performed by `xr.core.ops.get_op` for the six mnemonics. -/
def cmp_of_name (nm : String) : Option CmpOp :=
  if nm = "gt" then some .gt
  else if nm = "lt" then some .lt
  else if nm = "ge" then some .ge
  else if nm = "le" then some .le
  else if nm = "eq" then some .eq
  else if nm = "ne" then some .ne
  else none

/-- `xclim.indices.generic.get_op`: translate a symbol through `binary_ops`,
accept a mnemonic as-is, otherwise raise. -/
def get_op (op : String) : Except String CmpOp :=
  match binary_ops.lookup op with
  | some nm =>
      match cmp_of_name nm with
      | some c => Except.ok c
      | none => Except.error "Operation not recognized."
  | none =>
      if (binary_ops.map Prod.snd).contains op then
        match cmp_of_name op with
        | some c => Except.ok c
        | none => Except.error "Operation not recognized."
      else Except.error "Operation not recognized."

/-- Pointwise semantics of a comparison operator. -/
def apply_cmp (c : CmpOp) (v thresh : ℚ) : Bool :=
  match c with
  | .gt => decide (v > thresh)
  | .lt => decide (v < thresh)
  | .ge => decide (v ≥ thresh)
  | .le => decide (v ≤ thresh)
  | .eq => decide (v = thresh)
  | .ne => decide (v ≠ thresh)

/-- `xclim.indices.generic.compare`: `get_op(op)(da, thresh)` elementwise. -/
def compare (da : List ℚ) (op : String) (thresh : ℚ) : Except String (List Bool) :=
  match get_op op with
  | Except.ok c => Except.ok (da.map (fun v => apply_cmp c v thresh))
  | Except.error e => Except.error e

/-- `xclim.indices.generic.domain_count`.  The series is given already grouped
into its resample periods (resampling itself is the external engine);
`compare(da, ">", low) * compare(da, "<=", high) * 1` summed per period. -/
def domain_count (da : List (List ℚ)) (low high : ℚ) : Except String (List ℤ) :=
  da.mapM (fun g =>
    match compare g ">" low, compare g "<=" high with
    | Except.ok a, Except.ok b =>
        Except.ok (List.zipWith
          (fun x y => (if x then (1 : ℤ) else 0) * (if y then 1 else 0)) a b).sum
    | Except.error e, _ => Except.error e
    | _, Except.error e => Except.error e)

/-- Reduction operators accepted by `aggregate_between_dates` (the `std`
variant is omitted: its square root has no exact rational semantics and no
claim depends on it).  Reductions are NaN-skipping, applied to the list of
unmasked values; an empty selection gives 0 for `sum` (numpy nansum) and
missing for the others. -/
inductive AggOp where
  | sum | mean | min | max
deriving DecidableEq, Repr

/-- `getattr(masked, op)(dim="time", skipna=True)` over the kept values. -/
def reduce_op (op : AggOp) (vs : List ℚ) : Option ℚ :=
  match op with
  | .sum => some vs.sum
  | .mean => match vs with
             | [] => none
             | _ => some (vs.sum / vs.length)
  | .min => match vs with
            | [] => none
            | h :: t => some (t.foldl Min.min h)
  | .max => match vs with
            | [] => none
            | h :: t => some (t.foldl Max.max h)

/-- One resample period inside `aggregate_between_dates`: samples as
(days-since-base-time, value) pairs, plus the start/end bounds in
days-since-base-time for this period.  `none` bounds cover both a bound absent
for the period (the python `None` path) and a null (NaN) bound value, both of
which yield a missing result in the source. -/
structure AggGroup where
  samples : List (ℤ × ℚ)
  start_d : Option ℤ
  end_d : Option ℤ
deriving DecidableEq, Repr

/-- Per-period body of the `aggregate_between_dates` loop: keep samples with
`0 ≤ day` (`days[days < 0] = np.nan`) and `start_d ≤ day ≤ end_d - 1`, reduce
skipping NaN, then force NaN where `start_d > end_d` or a bound is null. -/
def agg_group (op : AggOp) (g : AggGroup) : Option ℚ :=
  match g.start_d, g.end_d with
  | some sd, some ed =>
      let masked := g.samples.filter
        (fun p => decide (0 ≤ p.1) && decide (sd ≤ p.1) && decide (p.1 ≤ ed - 1))
      let res := reduce_op op (masked.map Prod.snd)
      if ed < sd then none else res
  | _, _ => none

/-- `xclim.indices.generic.aggregate_between_dates`, after the resample
grouping: one result per period, concatenated along time. -/
def aggregate_between_dates (groups : List AggGroup) (op : AggOp) : List (Option ℚ) :=
  groups.map (agg_group op)

/-- Arithmetic mean, `da.mean(dim)`. -/
def list_mean (l : List ℚ) : ℚ := l.sum / l.length

/-- `xclim.sdba.processing.standardize`.  `std_fn` abstracts `da.std(dim)`
(whose square root has no exact rational value); it is only consulted when
`std_arg` is not supplied, exactly as the source only computes `da.std` when
`std is None`. -/
def standardize (std_fn : List ℚ → ℚ) (da : List ℚ)
    (mean_arg std_arg : Option ℚ) : List ℚ × ℚ × ℚ :=
  let mean := mean_arg.getD (list_mean da)
  let std := std_arg.getD (std_fn da)
  (da.map (fun v => (v - mean) / std), mean, std)

/-- `xclim.sdba.processing.unstandardize`: `(std * da) + mean`. -/
def unstandardize (da : List ℚ) (mean std : ℚ) : List ℚ :=
  da.map (fun v => std * v + mean)

/-- `x < thresh` under NaN semantics: false when the value is missing. -/
def lt_thresh (x : Option ℚ) (t : ℚ) : Bool :=
  match x with
  | some v => decide (v < t)
  | none => false

/-- `x > thresh` under NaN semantics: false when the value is missing. -/
def gt_thresh (x : Option ℚ) (t : ℚ) : Bool :=
  match x with
  | some v => decide (t < v)
  | none => false

/-- `xclim.sdba.processing.jitter_under_thresh`:
`x.where(~((x < thresh) & (x.notnull())), jitter)`.  `noise` is the oracle for
`np.random.uniform(low=eps, high=thresh, size=x.shape)`. -/
def jitter_under_thresh (x : List (Option ℚ)) (thresh : ℚ) (noise : List ℚ) :
    List (Option ℚ) :=
  List.zipWith
    (fun xi ji => if !(lt_thresh xi thresh && xi.isSome) then xi else some ji) x noise

/-- `xclim.sdba.processing.jitter_over_thresh`:
`x.where(~((x > thresh) & (x.notnull())), jitter)`.  `noise` is the oracle for
`np.random.uniform(low=thresh, high=upper_bnd, size=x.shape)`; `upper_bnd`
only bounds the draws, it does not enter the replacement logic. -/
def jitter_over_thresh (x : List (Option ℚ)) (thresh upper_bnd : ℚ) (noise : List ℚ) :
    List (Option ℚ) :=
  List.zipWith
    (fun xi ji => if !(gt_thresh xi thresh && xi.isSome) then xi else some ji) x noise

/-- Sampling-frequency base unit, the second component of `parse_offset`;
`other` stands for any base not among Q, M, D, H. -/
inductive FreqBase where
  | Q | M | D | H | other
deriving DecidableEq, Repr

/-- `elements_in_year = {"Q": 4, "M": 12, "D": days_in_year, "H": days_in_year * 24}`
with `.get(freq, 1)` and `days_in_year = max_doy[cal]`. -/
def elements_in_year (cal : Calendar) (base : FreqBase) : Nat :=
  match base with
  | .Q => 4
  | .M => 12
  | .D => max_doy cal
  | .H => max_doy cal * 24
  | .other => 1

/-- `xclim.sdba.processing._get_number_of_elements_by_year`.  The sampling
frequency is given pre-parsed as (mult, base) — `parse_offset(xr.infer_freq(time))`
is the external calendar service.  `N_in_year = elements / mult` must be an
integer; a zero multiplier models python's division-by-zero failure. -/
def _get_number_of_elements_by_year (cal : Calendar) (mult : Nat) (base : FreqBase) :
    Except String Nat :=
  if cal = .standard ∨ cal = .gregorian ∨ cal = .default_cal ∨ cal = .proleptic_gregorian then
    Except.error "For moving window computations, the data must have a uniform calendar (360_day, no_leap or all_leap)"
  else
    let e := elements_in_year cal base
    if 0 < mult ∧ mult ∣ e then Except.ok (e / mult)
    else Except.error "Sampling frequency of the data must be Q, M, D or H and evenly divide a year"

/-- The `while i_start + N <= da.time.size` loop of
`construct_moving_yearly_window`: emit the full slice starting at `i` and
advance by `sn` samples.  Structural fuel makes the loop total; `fuel ≥`
the iteration count whenever `0 < sn` (with `sn = 0` the source itself never
terminates, so that case is outside the model).  Windows are paired with their
start index — the `movingwin` coordinate, which in the source is the window's
first date (start index and first date determine each other at fixed sampling). -/
def construct_windows_loop (da : List α) (wn sn : Nat) : Nat → Nat → List (Nat × List α)
  | 0, _ => []
  | fuel + 1, i =>
      if i + wn ≤ da.length then
        (i, (da.drop i).take wn) :: construct_windows_loop da wn sn fuel (i + sn)
      else []

/-- `xclim.sdba.processing.construct_moving_yearly_window`: the first slice
`da.isel(time=slice(0, N))` is emitted unconditionally (truncated if the series
is shorter than one window), then only full slices are appended. -/
def construct_moving_yearly_window (cal : Calendar) (mult : Nat) (base : FreqBase)
    (window step : Nat) (da : List α) : Except String (List (Nat × List α)) :=
  match _get_number_of_elements_by_year cal mult base with
  | Except.error e => Except.error e
  | Except.ok n =>
      let N := window * n
      Except.ok ((0, da.take N) ::
        construct_windows_loop da N (step * n) (da.length + 1) (step * n))

/-- `xclim.sdba.processing.unpack_moving_yearly_window`.  The shared time axis
of the stacked object is the first window's, so `da.time.size` is the first
window's length.  The step is recovered from the spacing of the `movingwin`
coordinate: index spacing over `n` samples-per-year is exactly the source's
`diff(dim).dt.days / days_in_year`; `np.unique` is `dedup` over the exact
rationals, `int(...)` is the floor.  The non-integer-year-count warning has no
effect on the result and is not modelled.  An empty coordinate spacing (fewer
than two windows) is the source's uncaught IndexError. -/
def unpack_moving_yearly_window (cal : Calendar) (mult : Nat) (base : FreqBase)
    (daw : List (Nat × List α)) : Except String (List α) :=
  match _get_number_of_elements_by_year cal mult base with
  | Except.error e => Except.error e
  | Except.ok n =>
      let timeLen := match daw.head? with
                     | some w0 => w0.2.length
                     | none => 0
      let window := timeLen / n
      let starts := daw.map Prod.fst
      let diffs := List.zipWith (fun b a => b - a) starts.tail starts
      let steps := (diffs.map (fun (d : Nat) => (d : ℚ) / (n : ℚ))).dedup
      match steps with
      | [] => Except.error "index 0 is out of bounds"
      | [q] =>
          let step := q.floor.toNat
          let left := (window - step) / 2
          Except.ok ((daw.map (fun w => (w.2.drop (left * n)).take (step * n))).flatten)
      | _ => Except.error "The spacing between the windows is not equal."

/-- A synthetic full-year daily series on the `noleap` calendar: one entry per
day of the (non-leap) year 2001, value 0. -/
def year_series_noleap : Series :=
  (List.range 12).flatMap (fun mi =>
    (List.range ((month_lengths .noleap false).getD mi 0)).map (fun di =>
      (⟨2001, mi + 1, di + 1⟩, some 0)))

/-! ## Theorems -/

/-- C10: `select_time` with all four selection arguments unset returns the
input unchanged, with no masking, no dropping and no error, for any calendar
and any value of the `drop` flag. -/
theorem select_time_no_indexer_identity (cal : Calendar) (da : Series) (drop : Bool) :
    select_time cal da drop none none none none = Except.ok da := rfl

/-- C3 counterexample: with zero active selection modes, `select_time` does
not raise a configuration error — it returns the input unchanged — refuting
the claim that it fails whenever the number of active modes is not exactly
one. -/
theorem select_time_zero_modes_counterexample :
    n_indexers none none none none = 0 ∧
    select_time .noleap [(⟨2001, 1, 1⟩, some 5)] false none none none none =
      Except.ok [(⟨2001, 1, 1⟩, some 5)] :=
  ⟨rfl, rfl⟩

/-- C3 (amended): `select_time` fails with a configuration error exactly when
more than one of the four selection modes is active; with zero active modes it
returns the input unchanged instead of raising. -/
theorem select_time_mode_check (cal : Calendar) (da : Series) (drop : Bool)
    (seas : Option (List String)) (mon : Option (List Nat))
    (doyB : Option (Nat × Nat)) (dateB : Option ((Nat × Nat) × (Nat × Nat))) :
    ((∃ e, select_time cal da drop seas mon doyB dateB = Except.error e) ↔
      1 < n_indexers seas mon doyB dateB) ∧
    (n_indexers seas mon doyB dateB = 0 →
      select_time cal da drop seas mon doyB dateB = Except.ok da) := by
  rcases seas with _ | s <;> rcases mon with _ | m <;>
    rcases doyB with _ | b <;> rcases dateB with _ | c <;>
    simp [select_time, n_indexers]

/-- C3 witness: the amended theorem applied at a concrete input with zero
modes. -/
theorem select_time_mode_check_witness :
    select_time .noleap ([] : Series) false none none none none = Except.ok [] :=
  (select_time_mode_check .noleap [] false none none none none).2 rfl

/-- C4: with the same mean and (nonzero) std supplied to both,
`unstandardize` exactly inverts `standardize` on every series. -/
theorem standardize_roundtrip (std_fn : List ℚ → ℚ) (x : List ℚ) (mean std : ℚ)
    (h : std ≠ 0) :
    unstandardize (standardize std_fn x (some mean) (some std)).1 mean std = x := by
  have hv : ∀ v : ℚ, std * ((v - mean) / std) + mean = v := by
    intro v
    field_simp
  simp only [standardize, unstandardize, Option.getD_some, List.map_map,
    Function.comp_def, hv, List.map_id, List.map_id']

/-- C4 witness: round trip at a concrete series with mean 3, std 2. -/
theorem standardize_roundtrip_witness :
    (2 : ℚ) ≠ 0 ∧
    unstandardize (standardize (fun _ => 0) [1, 5, 9] (some 3) (some 2)).1 3 2 =
      [1, 5, 9] :=
  ⟨by norm_num, standardize_roundtrip (fun _ => 0) [1, 5, 9] 3 2 (by norm_num)⟩

/-- C2 counterexample: a period whose start bound equals its end bound gets an
empty aggregation window, and with `op = sum` the skipna reduction over it is
0 — not the missing value the claim requires for `start ≥ end`. -/
theorem aggregate_between_dates_counterexample :
    aggregate_between_dates [⟨[(0, 3), (1, 4)], some 0, some 0⟩] AggOp.sum =
      [some 0] ∧ (some (0 : ℚ) ≠ none) :=
  ⟨rfl, by simp⟩

/-- C2 (amended): per resample period, a strictly inverted bound pair
(`start > end`) or an undefined bound yields the missing value for that period
— while every period is computed independently of the others (the result is a
per-period map).  When `start = end` the window is empty: `sum` then yields 0
and the other reductions yield missing. -/
theorem aggregate_between_dates_missing_policy (groups : List AggGroup)
    (op : AggOp) (g : AggGroup) :
    aggregate_between_dates groups op = groups.map (agg_group op) ∧
    ((g.start_d = none ∨ g.end_d = none) → agg_group op g = none) ∧
    (∀ sd ed : ℤ, g.start_d = some sd → g.end_d = some ed → ed < sd →
      agg_group op g = none) := by
  refine ⟨rfl, ?_, ?_⟩
  · intro h
    rcases h with h | h
    · simp [agg_group, h]
    · cases hs : g.start_d <;> simp [agg_group, h, hs]
  · intro sd ed h1 h2 hlt
    simp [agg_group, h1, h2, if_pos hlt]

/-- C2 witness: a period with an undefined start bound yields missing. -/
theorem aggregate_between_dates_missing_policy_witness :
    aggregate_between_dates [⟨[(0, 3)], none, some 1⟩] AggOp.sum = [none] := by
  have h := aggregate_between_dates_missing_policy [⟨[(0, 3)], none, some 1⟩]
    AggOp.sum ⟨[(0, 3)], none, some 1⟩
  rw [h.1]
  show [agg_group AggOp.sum ⟨[(0, 3)], none, some 1⟩] = [none]
  rw [h.2.1 (Or.inl rfl)]

/-- C9: the jitter transforms replace exactly the values strictly below
(respectively strictly above) the threshold by the corresponding noise draw —
a substitution, not an addition — and leave every missing value and every
value not meeting the comparison unchanged. -/
theorem jitter_replacement (x : List (Option ℚ)) (thresh upper_bnd : ℚ)
    (noiseU noiseO : List ℚ) :
    jitter_under_thresh x thresh noiseU =
      List.zipWith (fun xi ji =>
        match xi with
        | none => none
        | some v => if v < thresh then some ji else some v) x noiseU ∧
    jitter_over_thresh x thresh upper_bnd noiseO =
      List.zipWith (fun xi ji =>
        match xi with
        | none => none
        | some v => if thresh < v then some ji else some v) x noiseO := by
  constructor
  · induction x generalizing noiseU with
    | nil => simp [jitter_under_thresh]
    | cons hd tl ih =>
        cases noiseU with
        | nil => simp [jitter_under_thresh]
        | cons j js =>
            cases hd with
            | none => simpa [jitter_under_thresh, lt_thresh] using ih js
            | some v =>
                by_cases hv : v < thresh <;>
                  simpa [jitter_under_thresh, lt_thresh, hv] using ih js
  · induction x generalizing noiseO with
    | nil => simp [jitter_over_thresh]
    | cons hd tl ih =>
        cases noiseO with
        | nil => simp [jitter_over_thresh]
        | cons j js =>
            cases hd with
            | none => simpa [jitter_over_thresh, gt_thresh] using ih js
            | some v =>
                by_cases hv : thresh < v <;>
                  simpa [jitter_over_thresh, gt_thresh, hv] using ih js

/-- Any operator string that is neither a symbol key nor a mnemonic value of
`binary_ops` makes `get_op` raise. -/
theorem get_op_unrecognized (op : String)
    (hop : op ∉ binary_ops.map Prod.fst ++ binary_ops.map Prod.snd) :
    get_op op = Except.error "Operation not recognized." := by
  have hlist : binary_ops.map Prod.fst ++ binary_ops.map Prod.snd =
      [">", "<", ">=", "<=", "==", "!=", "gt", "lt", "ge", "le", "eq", "ne"] := rfl
  rw [hlist] at hop
  simp only [List.mem_cons, List.mem_singleton, not_or] at hop
  obtain ⟨h1, h2, h3, h4, h5, h6, h7, h8, h9, h10, h11, h12⟩ := hop
  have b1 : (op == ">") = false := by simp [h1]
  have b2 : (op == "<") = false := by simp [h2]
  have b3 : (op == ">=") = false := by simp [h3]
  have b4 : (op == "<=") = false := by simp [h4]
  have b5 : (op == "==") = false := by simp [h5]
  have b6 : (op == "!=") = false := by simp [h6]
  simp [get_op, binary_ops, List.lookup, cmp_of_name, b1, b2, b3, b4, b5, b6,
    h7, h8, h9, h10, h11, h12, List.contains_eq_any_beq]

/-- C7: `compare` accepts each of the six comparison operators under both its
symbol and its mnemonic spelling, applying the corresponding pointwise
comparison, and `get_op` raises on every other operator string. -/
theorem compare_ops (da : List ℚ) (t : ℚ) :
    (∀ op : String, op ∉ binary_ops.map Prod.fst ++ binary_ops.map Prod.snd →
      get_op op = Except.error "Operation not recognized.") ∧
    (compare da ">" t = Except.ok (da.map (fun v => decide (t < v))) ∧
     compare da "gt" t = Except.ok (da.map (fun v => decide (t < v)))) ∧
    (compare da "<" t = Except.ok (da.map (fun v => decide (v < t))) ∧
     compare da "lt" t = Except.ok (da.map (fun v => decide (v < t)))) ∧
    (compare da ">=" t = Except.ok (da.map (fun v => decide (t ≤ v))) ∧
     compare da "ge" t = Except.ok (da.map (fun v => decide (t ≤ v)))) ∧
    (compare da "<=" t = Except.ok (da.map (fun v => decide (v ≤ t))) ∧
     compare da "le" t = Except.ok (da.map (fun v => decide (v ≤ t)))) ∧
    (compare da "==" t = Except.ok (da.map (fun v => decide (v = t))) ∧
     compare da "eq" t = Except.ok (da.map (fun v => decide (v = t)))) ∧
    (compare da "!=" t = Except.ok (da.map (fun v => decide (v ≠ t))) ∧
     compare da "ne" t = Except.ok (da.map (fun v => decide (v ≠ t)))) := by
  exact ⟨get_op_unrecognized, ⟨rfl, rfl⟩, ⟨rfl, rfl⟩, ⟨rfl, rfl⟩, ⟨rfl, rfl⟩,
    ⟨rfl, rfl⟩, ⟨rfl, rfl⟩⟩

/-- C7 witness: an unrecognized operator string raises; a recognized one is
applied pointwise. -/
theorem compare_ops_witness :
    ("between" ∉ binary_ops.map Prod.fst ++ binary_ops.map Prod.snd) ∧
    get_op "between" = Except.error "Operation not recognized." ∧
    compare [(1 : ℚ), 2] ">" 1 = Except.ok [false, true] := by
  refine ⟨by decide, (compare_ops [(1 : ℚ), 2] 1).1 "between" (by decide), ?_⟩
  rw [(compare_ops [(1 : ℚ), 2] 1).2.1.1]
  rfl

/-- The masked indicator product summed over one period counts the samples in
the half-open interval (low, high]. -/
theorem count_in_range (low high : ℚ) (g : List ℚ) :
    (List.zipWith (fun x y => (if x then (1 : ℤ) else 0) * (if y then 1 else 0))
      (g.map (fun v => apply_cmp .gt v low)) (g.map (fun v => apply_cmp .le v high))).sum
    = ((g.filter (fun v => decide (low < v ∧ v ≤ high))).length : ℤ) := by
  induction g with
  | nil => simp
  | cons v vs ih =>
      simp only [List.map_cons, List.zipWith_cons_cons, List.sum_cons, ih,
        List.filter_cons]
      by_cases h1 : low < v <;> by_cases h2 : v ≤ high <;>
        simp [apply_cmp, h1, h2] <;> push_cast <;> ring

/-- `domain_count` never fails and returns, per period, the number of samples
strictly above `low` and at most `high`. -/
theorem domain_count_eq (da : List (List ℚ)) (low high : ℚ) :
    domain_count da low high = Except.ok (da.map (fun g =>
      ((g.filter (fun v => decide (low < v ∧ v ≤ high))).length : ℤ))) := by
  induction da with
  | nil => rfl
  | cons g gs ih =>
      have hg : compare g ">" low = Except.ok (g.map (fun v => apply_cmp .gt v low)) := rfl
      have hh : compare g "<=" high = Except.ok (g.map (fun v => apply_cmp .le v high)) := rfl
      unfold domain_count at ih ⊢
      rw [List.mapM_cons, ih]
      simp only [hg, hh, count_in_range low high g]
      rfl

/-- C6: `domain_count` counts, per resample period, exactly the samples `v`
with `low < v ≤ high` (low excluded, high included); in particular a period
holding `[low, low+eps, high, high+eps]` with `0 < eps` and `low+eps ≤ high`
counts exactly 2. -/
theorem domain_count_halfopen (da : List (List ℚ)) (low high : ℚ) :
    domain_count da low high = Except.ok (da.map (fun g =>
      ((g.filter (fun v => decide (low < v ∧ v ≤ high))).length : ℤ))) ∧
    (∀ eps : ℚ, 0 < eps → low + eps ≤ high →
      domain_count [[low, low + eps, high, high + eps]] low high = Except.ok [2]) := by
  refine ⟨domain_count_eq da low high, ?_⟩
  intro eps heps hle
  rw [domain_count_eq]
  have hlh : low < high := by linarith
  have hlhe : low < high + eps := by linarith
  have hne : ¬ eps ≤ 0 := by linarith
  simp [List.filter, heps, hle, hlh, hlhe, hne]

/-- C6 witness: the interval (0, 1] over the synthetic period
`[0, 1/2, 1, 3/2]` counts exactly 2 samples. -/
theorem domain_count_halfopen_witness :
    (0 : ℚ) < 1 / 2 ∧ (0 : ℚ) + 1 / 2 ≤ 1 ∧
    domain_count [[0, 0 + 1 / 2, 1, 1 + 1 / 2]] 0 1 = Except.ok [2] :=
  ⟨by norm_num, by norm_num,
    (domain_count_halfopen [] 0 1).2 (1 / 2) (by norm_num) (by norm_num)⟩

/-- C5: on the synthetic full-year `noleap` daily series, `select_time` with
`doy_bounds = (335, 59)` and `drop` keeps exactly the days with day-of-year in
335..365 or 1..59 — the inclusive range wraps around year-end. -/
theorem select_time_doy_wraparound :
    select_time .noleap year_series_noleap true none none (some (335, 59)) none =
      Except.ok (year_series_noleap.filter (fun p =>
        decide ((335 ≤ dayofyear .noleap p.1 ∧ dayofyear .noleap p.1 ≤ 365) ∨
                (1 ≤ dayofyear .noleap p.1 ∧ dayofyear .noleap p.1 ≤ 59)))) := by
  set_option maxRecDepth 10000 in rfl

/-- Every window emitted by the construction loop is a full slice of the
series: `wn` samples starting at its start index, entirely inside the data. -/
theorem construct_windows_loop_mem {α : Type} (da : List α) (wn sn : Nat) :
    ∀ (fuel i : Nat) (p : Nat × List α), p ∈ construct_windows_loop da wn sn fuel i →
      p.2 = (da.drop p.1).take wn ∧ p.1 + wn ≤ da.length := by
  intro fuel
  induction fuel with
  | zero =>
      intro i p hp
      simp [construct_windows_loop] at hp
  | succ f ih =>
      intro i p hp
      rw [construct_windows_loop] at hp
      by_cases h : i + wn ≤ da.length
      · rw [if_pos h] at hp
        rcases List.mem_cons.mp hp with h0 | h0
        · subst h0
          exact ⟨rfl, h⟩
        · exact ih (i + sn) p h0
      · rw [if_neg h] at hp
        simp at hp

/-- C8 counterexample: on a uniform calendar with a divisor frequency, a
series shorter than one window succeeds and keeps its truncated first window
(2 samples where a window is 3 · 1 samples) instead of discarding the partial
window. -/
theorem construct_moving_yearly_window_counterexample :
    construct_moving_yearly_window .noleap 1 .other 3 1 ([0, 1] : List ℤ) =
      Except.ok [(0, [0, 1])] ∧ ([0, 1] : List ℤ).length ≠ 3 * 1 :=
  ⟨rfl, by decide⟩

/-- C8 (amended): `construct_moving_yearly_window` fails on the non-uniform
calendars (standard, gregorian, default, proleptic-gregorian) and whenever the
frequency multiplier does not evenly divide the per-year element count; on
success every window after the first is a full `window`-years slice lying
entirely inside the series (partial trailing windows are discarded, never
padded), while the first window is always emitted — truncated when the series
is shorter than one window. -/
theorem construct_moving_yearly_window_checks (cal : Calendar) (mult : Nat)
    (base : FreqBase) (window step : Nat) (da : List ℤ) :
    ((cal = .standard ∨ cal = .gregorian ∨ cal = .default_cal ∨ cal = .proleptic_gregorian) →
      ∃ e, construct_moving_yearly_window cal mult base window step da = Except.error e) ∧
    (¬(0 < mult ∧ mult ∣ elements_in_year cal base) →
      ∃ e, construct_moving_yearly_window cal mult base window step da = Except.error e) ∧
    (∀ n, _get_number_of_elements_by_year cal mult base = Except.ok n →
      ∃ tail, construct_moving_yearly_window cal mult base window step da =
          Except.ok ((0, da.take (window * n)) :: tail) ∧
        ∀ p ∈ tail, p.2 = (da.drop p.1).take (window * n) ∧
          p.1 + window * n ≤ da.length) := by
  refine ⟨?_, ?_, ?_⟩
  · intro h
    refine ⟨"For moving window computations, the data must have a uniform calendar (360_day, no_leap or all_leap)", ?_⟩
    unfold construct_moving_yearly_window _get_number_of_elements_by_year
    rw [if_pos h]
  · intro h
    by_cases hc : cal = .standard ∨ cal = .gregorian ∨ cal = .default_cal ∨
        cal = .proleptic_gregorian
    · refine ⟨"For moving window computations, the data must have a uniform calendar (360_day, no_leap or all_leap)", ?_⟩
      unfold construct_moving_yearly_window _get_number_of_elements_by_year
      rw [if_pos hc]
    · refine ⟨"Sampling frequency of the data must be Q, M, D or H and evenly divide a year", ?_⟩
      unfold construct_moving_yearly_window _get_number_of_elements_by_year
      rw [if_neg hc, if_neg h]
  · intro n hn
    refine ⟨construct_windows_loop da (window * n) (step * n) (da.length + 1) (step * n), ?_, ?_⟩
    · unfold construct_moving_yearly_window
      rw [hn]
    · intro p hp
      exact construct_windows_loop_mem da (window * n) (step * n) _ _ p hp

/-- C8 witness: concrete instances of all three conjuncts — a non-uniform
calendar fails, a non-divisor multiplier fails, and a successful call yields
the truncated-first-window-plus-full-slices shape. -/
theorem construct_moving_yearly_window_checks_witness :
    (∃ e, construct_moving_yearly_window .standard 1 .D 2 1 ([] : List ℤ) = Except.error e) ∧
    (∃ e, construct_moving_yearly_window .noleap 7 .Q 2 1 ([] : List ℤ) = Except.error e) ∧
    (∃ tail, construct_moving_yearly_window .noleap 1 .other 2 1 ([0, 1, 2] : List ℤ) =
        Except.ok ((0, ([0, 1, 2] : List ℤ).take (2 * 1)) :: tail) ∧
      ∀ p ∈ tail, p.2 = (([0, 1, 2] : List ℤ).drop p.1).take (2 * 1) ∧
        p.1 + 2 * 1 ≤ ([0, 1, 2] : List ℤ).length) := by
  refine ⟨(construct_moving_yearly_window_checks .standard 1 .D 2 1 []).1 (Or.inl rfl),
    (construct_moving_yearly_window_checks .noleap 7 .Q 2 1 []).2.1 (by decide),
    (construct_moving_yearly_window_checks .noleap 1 .other 2 1 [0, 1, 2]).2.2 1 rfl⟩

example (q : ℚ) : q.floor = ⌊q⌋ := rfl

/-- Every per-year element count of the frequency table is at least 1. -/
theorem elements_in_year_pos (cal : Calendar) (base : FreqBase) :
    1 ≤ elements_in_year cal base := by
  cases base <;> cases cal <;> decide

/-- A successful `_get_number_of_elements_by_year` yields at least one sample
per year. -/
theorem n_elements_pos (cal : Calendar) (mult : Nat) (base : FreqBase) (n : Nat)
    (h : _get_number_of_elements_by_year cal mult base = Except.ok n) : 1 ≤ n := by
  unfold _get_number_of_elements_by_year at h
  by_cases hc : cal = .standard ∨ cal = .gregorian ∨ cal = .default_cal ∨
      cal = .proleptic_gregorian
  · rw [if_pos hc] at h
    exact absurd h (by simp)
  · rw [if_neg hc] at h
    by_cases hd : 0 < mult ∧ mult ∣ elements_in_year cal base
    · rw [if_pos hd] at h
      injection h with h
      subst h
      have := elements_in_year_pos cal base
      have hle := Nat.le_of_dvd (by omega) hd.2
      exact (Nat.one_le_div_iff hd.1).mpr hle
    · rw [if_neg hd] at h
      exact absurd h (by simp)

/-- Closed form of the construction loop: starting at `i`, it emits exactly
the full `wn`-sample slices at `i`, `i+sn`, `i+2*sn`, ... while they fit. -/
theorem construct_windows_loop_eq {α : Type} (da : List α) (wn sn : Nat)
    (m fuel i : Nat)
    (h1 : ∀ j, j < m → i + j * sn + wn ≤ da.length)
    (h2 : da.length < i + m * sn + wn)
    (hfuel : m ≤ fuel) :
    construct_windows_loop da wn sn fuel i =
      (List.range m).map (fun j => (i + j * sn, (da.drop (i + j * sn)).take wn)) := by
  induction m generalizing fuel i with
  | zero =>
      have hlt : ¬ (i + wn ≤ da.length) := by omega
      cases fuel with
      | zero => simp [construct_windows_loop]
      | succ f =>
          rw [construct_windows_loop, if_neg hlt]
          simp
  | succ m ih =>
      cases fuel with
      | zero => omega
      | succ f =>
          have h0 : i + wn ≤ da.length := by
            have := h1 0 (Nat.succ_pos m)
            simpa using this
          rw [construct_windows_loop, if_pos h0]
          rw [List.range_succ_eq_map, List.map_cons, List.map_map]
          have harith : ∀ j : Nat, i + (j + 1) * sn = i + sn + j * sn := by
            intro j
            ring
          have hfun : ((fun j => (i + j * sn, (da.drop (i + j * sn)).take wn)) ∘ Nat.succ) =
              (fun j => (i + sn + j * sn, (da.drop (i + sn + j * sn)).take wn)) := by
            funext j
            simp [Function.comp, harith j]
          rw [hfun]
          simp only [Nat.zero_mul, Nat.add_zero]
          congr 1
          apply ih
          · intro j hj
            have := h1 (j + 1) (by omega)
            rw [harith j] at this
            exact this
          · have e : i + (m + 1) * sn + wn = i + sn + m * sn + wn := by ring
            rw [e] at h2
            exact h2
          · omega

/-- Concatenating `m` consecutive `c`-sample slices starting at offset `a`
recovers the contiguous slice of `m*c` samples at `a`. -/
theorem flatten_consecutive_slices {α : Type} (l : List α) (c : Nat) (m a : Nat)
    (h : a + m * c ≤ l.length) :
    ((List.range m).map (fun j => (l.drop (a + j * c)).take c)).flatten =
      (l.drop a).take (m * c) := by
  induction m generalizing a with
  | zero => simp
  | succ m ih =>
      rw [List.range_succ_eq_map, List.map_cons, List.map_map, List.flatten_cons]
      have harith : ∀ j : Nat, a + (j + 1) * c = a + c + j * c := by
        intro j
        ring
      have hfun : ((fun j => (l.drop (a + j * c)).take c) ∘ Nat.succ) =
          (fun j => (l.drop (a + c + j * c)).take c) := by
        funext j
        simp [Function.comp, harith j]
      rw [hfun]
      have hrec := ih (a + c) (by
        have e : a + c + m * c = a + (m + 1) * c := by ring
        rw [e]
        exact h)
      rw [hrec]
      have e2 : (m + 1) * c = c + m * c := by ring
      rw [e2, List.take_add, List.drop_drop]
      simp

/-- The pairwise differences of an arithmetic progression of start indices
are all equal to the stride. -/
theorem zip_diff_replicate (sn m a : Nat) :
    List.zipWith (fun b c => b - c)
      ((List.range' (a + 1) m).map (fun j => j * sn))
      ((List.range' a (m + 1)).map (fun j => j * sn)) = List.replicate m sn := by
  induction m generalizing a with
  | zero => simp
  | succ m ih =>
      rw [List.range'_succ, List.range'_succ a]
      simp only [List.map_cons, List.zipWith_cons_cons]
      have hh : (a + 1) * sn - a * sn = sn := by
        rw [Nat.succ_mul]
        omega
      rw [hh, List.replicate_succ]
      congr 1
      have := ih (a + 1)
      rw [List.range'_succ] at this ⊢
      exact this

/-- Deduplicating a nonempty constant list leaves the single value. -/
theorem dedup_replicate {α : Type} [DecidableEq α] (x : α) (m : Nat) (hm : 1 ≤ m) :
    (List.replicate m x).dedup = [x] := by
  induction m with
  | zero => omega
  | succ m ih =>
      cases m with
      | zero => simp
      | succ m' =>
          rw [List.replicate_succ, List.dedup_cons_of_mem (by simp [List.mem_replicate])]
          exact ih (by omega)

/-- Evaluation of `construct_moving_yearly_window` on a whole number of
years: the output is the window at every start `j*(step*n)` that fits,
each a full `window*n`-sample slice. -/
theorem construct_eval (cal : Calendar) (mult : Nat) (base : FreqBase) (n : Nat)
    (hn : _get_number_of_elements_by_year cal mult base = Except.ok n)
    (da : List ℤ) (Y w s : Nat)
    (hL : da.length = Y * n) (hn1 : 1 ≤ n) (hs : 1 ≤ s) (hwY : w + s ≤ Y)
    (hdvd : s ∣ Y - w) :
    construct_moving_yearly_window cal mult base w s da =
      Except.ok ((List.range ((Y - w) / s + 1)).map
        (fun j => (j * (s * n), (da.drop (j * (s * n))).take (w * n)))) := by
  have hK : ((Y - w) / s) * s = Y - w := Nat.div_mul_cancel hdvd
  simp only [construct_moving_yearly_window, hn]
  rw [List.range_succ_eq_map, List.map_cons, List.map_map]
  have hhead : ((0 : Nat) * (s * n), (da.drop (0 * (s * n))).take (w * n)) =
      ((0 : Nat), da.take (w * n)) := by simp
  rw [hhead]
  congr 1
  have hfun : ((fun j => (j * (s * n), (da.drop (j * (s * n))).take (w * n))) ∘ Nat.succ) =
      (fun j => (s * n + j * (s * n), (da.drop (s * n + j * (s * n))).take (w * n))) := by
    funext j
    have e : (j + 1) * (s * n) = s * n + j * (s * n) := by ring
    simp [Function.comp, e]
  rw [hfun]
  congr 1
  apply construct_windows_loop_eq
  · intro j hj
    have e : s * n + j * (s * n) + w * n = ((1 + j) * s + w) * n := by ring
    rw [e, hL]
    apply Nat.mul_le_mul_right
    have h1 : (1 + j) * s ≤ ((Y - w) / s) * s := Nat.mul_le_mul_right s (by omega)
    omega
  · have e : s * n + ((Y - w) / s) * (s * n) + w * n = (s + ((Y - w) / s) * s + w) * n := by
      ring
    rw [e, hL]
    exact (Nat.mul_lt_mul_right (by omega : 0 < n)).mpr (by omega)
  · have h1 : (Y - w) / s ≤ Y - w := Nat.div_le_self _ _
    have h2 : Y ≤ Y * n := Nat.le_mul_of_pos_right Y (by omega)
    omega

/-- Evaluation of `unpack_moving_yearly_window` on a stack of `K+1` full
windows spaced `step` years apart: it keeps the central `step`-years slice of
each window — offset `(window-step)/2` years, floor division — and
concatenates them into the contiguous central span. -/
theorem unpack_eval (cal : Calendar) (mult : Nat) (base : FreqBase) (n : Nat)
    (hn : _get_number_of_elements_by_year cal mult base = Except.ok n)
    (hn1 : 1 ≤ n) (da : List ℤ) (Y w s K : Nat)
    (hL : da.length = Y * n) (hs : 1 ≤ s) (hsw : s < w) (hwle : w ≤ Y)
    (hK1 : 1 ≤ K) (hYb : (w - s) / 2 + (K + 1) * s ≤ Y) :
    unpack_moving_yearly_window cal mult base
        ((List.range (K + 1)).map
          (fun j => (j * (s * n), (da.drop (j * (s * n))).take (w * n)))) =
      Except.ok ((da.drop (((w - s) / 2) * n)).take ((K + 1) * s * n)) := by
  have hn0 : 0 < n := hn1
  have hwn : w * n ≤ da.length := by
    rw [hL]
    exact Nat.mul_le_mul_right n (by omega)
  simp only [unpack_moving_yearly_window, hn]
  have hstarts : (List.map Prod.fst ((List.range (K + 1)).map
      (fun j => (j * (s * n), (da.drop (j * (s * n))).take (w * n))))) =
      (List.range (K + 1)).map (fun j => j * (s * n)) := by
    simp
  rw [hstarts]
  have htl : ((List.range' 0 (K + 1)).map (fun j => j * (s * n))).tail =
      (List.range' (0 + 1) K).map (fun j => j * (s * n)) := by
    rw [List.range'_succ]
    simp
  have hdiffs : List.zipWith (fun b a => b - a)
      (((List.range (K + 1)).map (fun j => j * (s * n))).tail)
      ((List.range (K + 1)).map (fun j => j * (s * n))) = List.replicate K (s * n) := by
    rw [List.range_eq_range', htl]
    exact zip_diff_replicate (s * n) K 0
  rw [hdiffs, List.map_replicate, dedup_replicate _ K hK1]
  have hhead : (((List.range (K + 1)).map
      (fun j => (j * (s * n), (da.drop (j * (s * n))).take (w * n))))).head? =
      some (0, da.take (w * n)) := by
    rw [List.range_succ_eq_map, List.map_cons, List.head?_cons]
    simp
  rw [hhead]
  have hfloor : (((s * n : ℕ) : ℚ) / ((n : ℕ) : ℚ)).floor.toNat = s := by
    have h1 : (((s * n : ℕ) : ℚ) / ((n : ℕ) : ℚ)).floor = ((s * n) / n : ℕ) :=
      Rat.floor_natCast_div_natCast (s * n) n
    rw [h1, Nat.mul_div_cancel s hn0]
    rfl
  dsimp only
  rw [hfloor]
  have hlen : (List.take (w * n) da).length = w * n := by
    rw [List.length_take]
    omega
  rw [hlen, Nat.mul_div_cancel w hn0]
  have hless : (w - s) / 2 * n + s * n ≤ w * n := by
    have h2 : (w - s) / 2 + s ≤ w := by omega
    calc (w - s) / 2 * n + s * n = ((w - s) / 2 + s) * n := by ring
    _ ≤ w * n := Nat.mul_le_mul_right n h2
  have hslice : ∀ j : Nat,
      (((da.drop (j * (s * n))).take (w * n)).drop ((w - s) / 2 * n)).take (s * n) =
        (da.drop ((w - s) / 2 * n + j * (s * n))).take (s * n) := by
    intro j
    rw [List.drop_take, List.take_take, List.drop_drop]
    have hmin : min (s * n) (w * n - (w - s) / 2 * n) = s * n := by
      apply Nat.min_eq_left
      omega
    rw [hmin, Nat.add_comm (j * (s * n)) ((w - s) / 2 * n)]
  rw [List.map_map]
  have hfun2 : ((fun w1 : Nat × List ℤ => (w1.2.drop ((w - s) / 2 * n)).take (s * n)) ∘
      (fun j => (j * (s * n), (da.drop (j * (s * n))).take (w * n)))) =
      (fun j => (da.drop ((w - s) / 2 * n + j * (s * n))).take (s * n)) := by
    funext j
    simp only [Function.comp]
    exact hslice j
  rw [hfun2]
  have hflat := flatten_consecutive_slices da (s * n) (K + 1) ((w - s) / 2 * n) (by
    have e : (w - s) / 2 * n + (K + 1) * (s * n) = ((w - s) / 2 + (K + 1) * s) * n := by ring
    rw [hL, e]
    exact Nat.mul_le_mul_right n hYb)
  rw [hflat]
  have e3 : (K + 1) * (s * n) = (K + 1) * s * n := by ring
  rw [e3]

/-- C1 (amended): on a uniform calendar with a divisor sampling frequency,
for `step < window`, `construct_moving_yearly_window` followed by
`unpack_moving_yearly_window` reproduces the central span of the original
series — starting `(window-step)/2` years in (floor division) — provided the
series is at least `window + step` years long and `step` divides
`length - window` in years; the reconstructed span then has exactly
`length - (window - step)` years.  (Without the divisibility condition the
reconstruction is shorter than the claim states, and with fewer than two
windows the unpacking step fails.) -/
theorem moving_window_roundtrip (cal : Calendar) (mult : Nat) (base : FreqBase) (n : Nat)
    (hn : _get_number_of_elements_by_year cal mult base = Except.ok n)
    (da : List ℤ) (Y w s : Nat)
    (hL : da.length = Y * n) (hs : 1 ≤ s) (hsw : s < w) (hwY : w + s ≤ Y)
    (hdvd : s ∣ Y - w) :
    (construct_moving_yearly_window cal mult base w s da).bind
        (unpack_moving_yearly_window cal mult base) =
      Except.ok ((da.drop (((w - s) / 2) * n)).take ((Y - (w - s)) * n)) := by
  have hn1 : 1 ≤ n := n_elements_pos cal mult base n hn
  have hKs : ((Y - w) / s) * s = Y - w := Nat.div_mul_cancel hdvd
  have hK1 : 1 ≤ (Y - w) / s := (Nat.one_le_div_iff hs).mpr (by omega)
  rw [construct_eval cal mult base n hn da Y w s hL hn1 hs hwY hdvd]
  show unpack_moving_yearly_window cal mult base _ = _
  have hYb : (w - s) / 2 + ((Y - w) / s + 1) * s ≤ Y := by
    have e2 : ((Y - w) / s + 1) * s = ((Y - w) / s) * s + s := by ring
    omega
  rw [unpack_eval cal mult base n hn hn1 da Y w s ((Y - w) / s) hL hs hsw (by omega) hK1 hYb]
  have e : ((Y - w) / s + 1) * s * n = (Y - (w - s)) * n := by
    have e1 : ((Y - w) / s + 1) * s = ((Y - w) / s) * s + s := by ring
    rw [e1, hKs]
    have e2 : Y - w + s = Y - (w - s) := by omega
    rw [e2]
  rw [e]

/-- C1 counterexample: 6 years of yearly samples, `window = 3`, `step = 2`
(`step < window`): the round trip returns only 4 years, not the central
`6 - (3 - 2) = 5`-year span the claim promises. -/
theorem moving_window_roundtrip_counterexample :
    (construct_moving_yearly_window .noleap 1 .other 3 2 ([0, 1, 2, 3, 4, 5] : List ℤ)).bind
        (unpack_moving_yearly_window .noleap 1 .other) =
      Except.ok ([0, 1, 2, 3] : List ℤ) ∧
    (([0, 1, 2, 3, 4, 5] : List ℤ).drop (((3 - 2) / 2) * 1)).take ((6 - (3 - 2)) * 1) =
      ([0, 1, 2, 3, 4] : List ℤ) ∧
    ([0, 1, 2, 3] : List ℤ) ≠ [0, 1, 2, 3, 4] := by
  refine ⟨?_, by decide, by decide⟩
  have h := unpack_eval .noleap 1 .other 1 rfl (le_refl 1) [0, 1, 2, 3, 4, 5] 6 3 2 1
    rfl (by omega) (by omega) (by omega) (le_refl 1) (by omega)
  exact h.trans rfl

/-- C1 witness: the amended round-trip theorem applied to 5 years of yearly
samples with `window = 3`, `step = 1`. -/
theorem moving_window_roundtrip_witness :
    _get_number_of_elements_by_year .noleap 1 .other = Except.ok 1 ∧
    ([0, 1, 2, 3, 4] : List ℤ).length = 5 * 1 ∧ (1 : Nat) ≤ 1 ∧ 1 < 3 ∧ 3 + 1 ≤ 5 ∧
    (1 : Nat) ∣ 5 - 3 ∧
    (construct_moving_yearly_window .noleap 1 .other 3 1 ([0, 1, 2, 3, 4] : List ℤ)).bind
        (unpack_moving_yearly_window .noleap 1 .other) =
      Except.ok ((([0, 1, 2, 3, 4] : List ℤ).drop (((3 - 1) / 2) * 1)).take
        ((5 - (3 - 1)) * 1)) := by
  refine ⟨rfl, rfl, le_refl 1, by omega, by omega, ⟨2, rfl⟩, ?_⟩
  exact moving_window_roundtrip .noleap 1 .other 1 rfl [0, 1, 2, 3, 4] 5 3 1 rfl
    (le_refl 1) (by omega) (by omega) ⟨2, rfl⟩

end Xclim
